import Mathlib

/-!
# A shallow embedding of `simple_printf_v7.c`

This file embeds the conversion-specifier interpreter, integer renderer and
output sinks of `simple_printf_v7.c` in Lean, and proves / refutes the
specification claims about them.

Machine model (the author's platform, LP64):
`char` = 8 bits, `short` = 16, `int` = 32, `long` = `long long` = `intmax_t`
= `size_t` = `ptrdiff_t` = pointers = 64 bits.  A variadic slot holds 64 bits.
-/

namespace SimplePrintf

/-- The C `'\0'` terminator character. -/
def nulChar : Char := Char.ofNat 0

/-- Interpret the low `w` bits of a slot value as a `w`-bit two's-complement
signed integer (the effect of fetching/casting to a signed type of width `w`). -/
def signedOf (w : Nat) (v : Nat) : Int :=
  let m := v % 2 ^ w
  if m < 2 ^ (w - 1) then (m : Int) else (m : Int) - (2 ^ w : Nat)

/-- Wrap an unbounded integer into a `w`-bit two's-complement value
(the effect of storing into a signed integer of width `w`). -/
def wrapSigned (w : Nat) (x : Int) : Int :=
  (x + 2 ^ (w - 1)) % (2 ^ w : Nat) - 2 ^ (w - 1)

/-- Storing a C `int` into a `short` struct field. -/
def toShort (x : Int) : Int := wrapSigned 16 x

/-- One variadic argument, as passed in a 64-bit argument slot. -/
inductive Arg where
  /-- an integer or pointer slot: the raw 64-bit pattern -/
  | word (v : Nat) : Arg
  /-- a pointer to a NUL-terminated string whose content (sans NUL) is `s` -/
  | str (s : List Char) : Arg
deriving DecidableEq

/-- The conversion descriptor `struct conv`.  Defaults mirror the all-zeros
initialization `{ .base = 10, ... }` in `printf_core`. -/
structure Conv where
  leading_zero : Bool := false
  left_justify : Bool := false
  is_alt : Bool := false
  /-- `kSignDefault = 0`, `kSignAlways = 1`, `kSignSpace = 2` -/
  sign : Nat := 0
  /-- `kLengthChar = -2` .. `kLengthVoidP = 6` -/
  length : Int := 0
  explicit_width : Bool := false
  explicit_prec : Bool := false
  /-- a C `short` field -/
  width : Int := 0
  /-- a C `short` field -/
  prec : Int := 0
  soft_prec : Bool := false
  is_caps : Bool := false
  is_signed : Bool := false
  base : Nat := 10
  type : Char := nulChar
deriving DecidableEq

/-- Read the format character at index `i`; the position `fmt.length` holds the
terminating NUL.  (Positions beyond that also read as NUL here; the one place
the C code can reach them is flagged as out of bounds in the driver loop.) -/
def cAt (fmt : List Char) (i : Nat) : Char := fmt.getD i nulChar

/-- C `isdigit` on the characters of the format string. -/
def isdigit (c : Char) : Bool := 48 ≤ c.toNat && c.toNat ≤ 57

/-- The flag-scanning loop of `parse_flags`.  `sp` accumulates whether a `' '`
flag was seen.  Fuel bounds the loop; `fmt.length + 2` is always enough. -/
def parse_flags_loop (fmt : List Char) : Nat → Nat → Conv → Bool → Nat × Conv × Bool
  | 0, pos, conv, sp => (pos, conv, sp)
  | fuel + 1, pos, conv, sp =>
    let ch := cAt fmt pos
    if ch = '0' then parse_flags_loop fmt fuel (pos + 1) { conv with leading_zero := true } sp
    else if ch = '-' then parse_flags_loop fmt fuel (pos + 1) { conv with left_justify := true } sp
    else if ch = '+' then parse_flags_loop fmt fuel (pos + 1) { conv with sign := 1 } sp
    else if ch = '#' then parse_flags_loop fmt fuel (pos + 1) { conv with is_alt := true } sp
    else if ch = ' ' then parse_flags_loop fmt fuel (pos + 1) conv true
    else (pos, conv, sp)

/-- `parse_flags`: scan flags in any order; `' '` takes effect only if `'+'`
was not also provided. -/
def parse_flags (fmt : List Char) (fuel : Nat) (pos : Nat) (conv : Conv) : Nat × Conv :=
  let (pos', conv', sp) := parse_flags_loop fmt fuel pos conv false
  (pos', if sp ∧ conv'.sign = 0 then { conv' with sign := 2 } else conv')

/-- The decimal-digit accumulation loop shared by the width and precision
parsers (`while (isdigit(ch)) ...`). -/
def scan_digits (fmt : List Char) : Nat → Nat → Int → Nat × Int
  | 0, pos, acc => (pos, acc)
  | fuel + 1, pos, acc =>
    let ch := cAt fmt pos
    if isdigit ch then scan_digits fmt fuel (pos + 1) (acc * 10 + ((ch.toNat : Int) - 48))
    else (pos, acc)

/-- `parse_width`: a digit run or `*` (fetch an `int` argument; a negative
width forces left justification and uses the absolute value). -/
def parse_width (fmt : List Char) (fuel : Nat) (pos : Nat) (conv : Conv)
    (args : List Arg) (ub : Bool) : Nat × Conv × List Arg × Bool :=
  let ch := cAt fmt pos
  if ch = '*' then
    let conv := { conv with explicit_width := true }
    match args with
    | Arg.word v :: rest =>
      let w := signedOf 32 v
      -- a negative width specifies left justification
      let lj := if w < 0 then true else conv.left_justify
      let w2 := if w < 0 then wrapSigned 32 (-w) else w
      (pos + 1, { conv with left_justify := lj, width := toShort w2 }, rest, ub)
    | Arg.str _ :: rest =>
      -- a string pointer reinterpreted as `int`: undefined, flagged
      (pos + 1, { conv with width := 0 }, rest, true)
    | [] => (pos + 1, { conv with width := 0 }, [], true)
  else
    let (pos', w) := scan_digits fmt fuel pos 0
    (pos', { conv with explicit_width := isdigit ch, width := toShort w }, args, ub)

/-- `parse_prec`: optional, introduced by `.`; digits or `*` (fetch an `int`;
negative clamps to 0). -/
def parse_prec (fmt : List Char) (fuel : Nat) (pos : Nat) (conv : Conv)
    (args : List Arg) (ub : Bool) : Nat × Conv × List Arg × Bool :=
  if cAt fmt pos = '.' then
    let conv := { conv with explicit_prec := true }
    let pos := pos + 1
    if cAt fmt pos = '*' then
      match args with
      | Arg.word v :: rest =>
        let p := signedOf 32 v
        let p := if p < 0 then 0 else p
        (pos + 1, { conv with prec := toShort p }, rest, ub)
      | Arg.str _ :: rest => (pos + 1, { conv with prec := 0 }, rest, true)
      | [] => (pos + 1, { conv with prec := 0 }, [], true)
    else
      let (pos', p) := scan_digits fmt fuel pos 0
      (pos', { conv with prec := toShort p }, args, ub)
  else
    (pos, { conv with prec := 0 }, args, ub)

/-- `parse_length`: `hh h l ll j z t`, plus the peek for `p` (fixed pointer
width).  This mirrors the `PACK_CHAR_` switch: a case with a distinct second
character (`'h','h'` / `'l','l'`) requires equality, every other case requires
the two characters to differ. -/
def parse_length (fmt : List Char) (pos : Nat) (conv : Conv) : Nat × Conv :=
  let ch1 := cAt fmt pos
  let ch2 := cAt fmt (pos + 1)
  if ch1 = 'h' then
    if ch2 = 'h' then (pos + 2, { conv with length := -2 })
    else (pos + 1, { conv with length := -1 })
  else if ch1 = 'l' then
    if ch2 = 'l' then (pos + 2, { conv with length := 2 })
    else (pos + 1, { conv with length := 1 })
  else if ch1 = 'j' ∧ ch2 ≠ 'j' then (pos + 1, { conv with length := 3 })
  else if ch1 = 'z' ∧ ch2 ≠ 'z' then (pos + 1, { conv with length := 4 })
  else if ch1 = 't' ∧ ch2 ≠ 't' then (pos + 1, { conv with length := 5 })
  else if ch1 = 'p' ∧ ch2 ≠ 'p' then (pos, { conv with length := 6 })
  else (pos, conv)

/-! ## Integer rendering -/

/-- `INT_BUF_SIZE`: the fixed scratch-buffer capacity. -/
def INT_BUF_SIZE : Nat := 48

/-- The digit alphabets `hex_digits[2]`. -/
def hex_digits (caps : Bool) : List Char :=
  if caps then "0123456789ABCDEF".toList else "0123456789abcdef".toList

/-- One digit from the chosen alphabet. -/
def hexDigit (caps : Bool) (d : Nat) : Char := (hex_digits caps).getD d '?'

/-- The digit-generation `do/while` loop, bounded by an iteration budget: the
loop divides `v` by `base ≥ 2` each round, so it runs at most `v + 1` times. -/
def convDigitsAux (caps : Bool) (base : Nat) : Nat → Nat → List Char
  | 0, v => [hexDigit caps (v % base)]
  | fuel + 1, v =>
    if 1 < base ∧ base ≤ v then
      convDigitsAux caps base fuel (v / base) ++ [hexDigit caps (v % base)]
    else [hexDigit caps (v % base)]

/-- The digit-generation `do/while` loop: digits of `v` in base `base`,
most significant first; always at least one digit. -/
def convDigits (caps : Bool) (base : Nat) (v : Nat) : List Char :=
  convDigitsAux caps base v v

/-- Sign resolution for signed conversions: `SIGN_BIT` test, negation through
unsigned wraparound, `+`/space display flags. -/
def resolveSign (conv : Conv) (value : Nat) : Option Char × Nat :=
  if conv.is_signed then
    if 2 ^ 63 ≤ value % 2 ^ 64 then (some '-', (2 ^ 64 - value % 2 ^ 64) % 2 ^ 64)
    else if conv.sign = 1 then (some '+', value)
    else if conv.sign = 2 then (some ' ', value)
    else (none, value)
  else (none, value)

/-- The soft-precision adjustment in `convert_integer_to_string`: when the
precision came from the width field, make room for `0x`/`0X`, a leading octal
`0` (when `lead`, the leading digit, is not already `0`) and the sign;
floored at 1. -/
def soft_prec_adjust (conv : Conv) (sign_char : Option Char) (lead : Char) : Int :=
  if conv.soft_prec then
    let p := conv.prec
    let p := if conv.is_alt ∧ conv.base = 16 then p - 2 else p
    let p := if conv.is_alt ∧ conv.base = 8 ∧ lead ≠ '0' then p - 1 else p
    let p := if sign_char.isSome then p - 1 else p
    if p < 1 then 1 else p
  else conv.prec

/-- The padding-start index: `conv->prec < INT_BUF_SIZE - 1 ?
INT_BUF_SIZE - conv->prec : 1`, then bumped to leave room for `0x`/`0`
prefixes and the sign. -/
def precIdx (prec : Int) (is_alt : Bool) (base : Nat) (signPresent : Bool) : Int :=
  let pi : Int := if prec < 47 then 48 - prec else 1
  let pi := if pi < 3 ∧ is_alt ∧ base = 16 then 3 else pi
  let pi := if pi < 2 ∧ is_alt ∧ base = 8 then 2 else pi
  if pi < 2 ∧ signPresent then 2 else pi

/-- The zero-padding / prefix / sign phase of `convert_integer_to_string`
(its second half, after the digit loop): pad with zeros out to the precision
index, prepend the alternate-form octal `0` and hex `0x`/`0X`, then the sign.
Returns the first-character index and the text `buf[idx .. 46]`; by
construction the text has length `47 - idx`. -/
def render_integer (conv : Conv) (sign_char : Option Char) (digits : List Char) :
    Int × List Char :=
  let idx1 : Int := 47 - digits.length
  let prec' := soft_prec_adjust conv sign_char (digits.headD nulChar)
  let pi := precIdx prec' conv.is_alt conv.base sign_char.isSome
  -- add leading zeros out to the precision index
  let idx2 := if pi ≤ idx1 then pi - 1 else idx1
  let s1 := List.replicate (idx1 - idx2).toNat '0' ++ digits
  -- alternate-form octal: a leading 0 if needed
  let octAdd := conv.is_alt ∧ conv.base = 8 ∧ s1.headD nulChar ≠ '0'
  let idx3 := if octAdd then idx2 - 1 else idx2
  let s2 := if octAdd then '0' :: s1 else s1
  -- alternate-form hex: a leading "0x" or "0X"
  let hexAdd := conv.is_alt ∧ conv.base = 16
  let idx4 := if hexAdd then idx3 - 2 else idx3
  let s3 := if hexAdd then '0' :: (if conv.is_caps then 'X' else 'x') :: s2 else s2
  -- the sign character, if any
  let idx5 := if sign_char.isSome then idx4 - 1 else idx4
  let s4 := match sign_char with
    | some c => c :: s3
    | none => s3
  (idx5, s4)

/-- `convert_integer_to_string`.  The C function fills `buf[48]` from the end
and returns the index of the first character; we return that index together
with the characters `buf[idx .. 46]` (the rendered text, without the NUL at
index 47). -/
def convert_integer_to_string (value : Nat) (conv : Conv) : Int × List Char :=
  -- print nothing if value and precision are both 0, and not alt octal
  if value = 0 ∧ conv.prec = 0 ∧ ¬(conv.is_alt ∧ conv.base = 8) then
    ((INT_BUF_SIZE : Int) - 1, [])
  else
    render_integer conv (resolveSign conv value).1
      (convDigits conv.is_caps conv.base (resolveSign conv value).2)

/-! ## Output sinks (`struct printer`) -/

/-- The three output capabilities plus the running total, abstracting
`struct printer`'s function pointers. -/
structure SinkOps (σ : Type) where
  copy : σ → List Char → σ
  fill : σ → Char → Nat → σ
  putc : σ → Char → σ
  total : σ → Nat

/-- The call-local state threaded through a formatting run: the sink, the
remaining variadic arguments, the totals recorded by `%n` (whose narrowing
stores land in caller memory, outside this model), and a latched flag for
out-of-bounds reads / invalid variadic accesses. -/
structure PState (σ : Type) where
  sink : σ
  args : List Arg
  nstores : List Nat
  ub : Bool

/-- Fetch one variadic slot (`va_arg` on an integer or pointer type). -/
def vaWord {σ : Type} (st : PState σ) : Nat × PState σ :=
  match st.args with
  | Arg.word v :: rest => (v, { st with args := rest })
  | Arg.str _ :: rest => (0, { st with args := rest, ub := true })
  | [] => (0, { st with ub := true })

/-- `get_signed_integer`: fetch at the modifier's width, sign-extend, and
convert to `uintmax_t` (reduce mod `2^64`). -/
def get_signed_integer {σ : Type} (len : Int) (st : PState σ) : Nat × PState σ :=
  let r := vaWord st
  let v := r.1
  let st := r.2
  let i : Int :=
    if len = -2 then signedOf 8 v          -- signed char
    else if len = -1 then signedOf 16 v    -- short
    else if len = 0 then signedOf 32 v     -- int
    else if len = 1 then signedOf 64 v     -- long
    else if len = 2 then signedOf 64 v     -- long long
    else if len = 3 then signedOf 64 v     -- intmax_t
    else if len = 4 then signedOf 64 v     -- ssize_type
    else if len = 5 then signedOf 64 v     -- ptrdiff_t
    else if len = 6 then (v % 2 ^ 64 : Nat)  -- (uintptr_t)(void *)
    else signedOf 32 v                     -- unknown: guess int
  ((i % (2 ^ 64 : Nat)).toNat, st)

/-- `get_unsigned_integer`: fetch at the modifier's width, zero-extend. -/
def get_unsigned_integer {σ : Type} (len : Int) (st : PState σ) : Nat × PState σ :=
  let r := vaWord st
  let v := r.1
  let st := r.2
  let u : Nat :=
    if len = -2 then v % 2 ^ 8             -- unsigned char
    else if len = -1 then v % 2 ^ 16       -- unsigned short
    else if len = 0 then v % 2 ^ 32        -- unsigned
    else if len = 1 then v % 2 ^ 64        -- unsigned long
    else if len = 2 then v % 2 ^ 64        -- unsigned long long
    else if len = 3 then v % 2 ^ 64        -- uintmax_t
    else if len = 4 then v % 2 ^ 64        -- size_t
    else if len = 5 then v % 2 ^ 64        -- uptrdiff_type
    else if len = 6 then v % 2 ^ 64        -- (uintptr_t)(void *)
    else v % 2 ^ 32                        -- unknown: guess unsigned
  (u, st)

/-- `print_converted_string`: space fill out to the field width around the
rendered text. -/
def print_converted_string {σ : Type} (S : SinkOps σ) (conv : Conv) (str : List Char)
    (st : PState σ) : PState σ × Bool :=
  let fill_count : Int := if conv.width > (str.length : Int) then conv.width - str.length else 0
  let fn := fill_count.toNat
  let st := if ¬conv.left_justify ∧ fill_count ≠ 0 then { st with sink := S.fill st.sink ' ' fn } else st
  let st := { st with sink := S.copy st.sink str }
  let st := if conv.left_justify ∧ fill_count ≠ 0 then { st with sink := S.fill st.sink ' ' fn } else st
  (st, true)

/-- Projections commute with conditionals on run states. -/
@[simp] theorem PState.args_ite {σ : Type} (c : Prop) [Decidable c] (a b : PState σ) :
    (if c then a else b).args = if c then a.args else b.args := by split_ifs <;> rfl

@[simp] theorem PState.nstores_ite {σ : Type} (c : Prop) [Decidable c] (a b : PState σ) :
    (if c then a else b).nstores = if c then a.nstores else b.nstores := by split_ifs <;> rfl

@[simp] theorem PState.ub_ite {σ : Type} (c : Prop) [Decidable c] (a b : PState σ) :
    (if c then a else b).ub = if c then a.ub else b.ub := by split_ifs <;> rfl

/-- `print_converted_string` only writes to the sink: the argument, `%n` and
flag state pass through, and it always succeeds. -/
@[simp] theorem print_converted_string_args {σ : Type} (S : SinkOps σ) (conv : Conv)
    (str : List Char) (st : PState σ) :
    (print_converted_string S conv str st).1.args = st.args := by
  simp only [print_converted_string]
  split_ifs <;> rfl

@[simp] theorem print_converted_string_nstores {σ : Type} (S : SinkOps σ) (conv : Conv)
    (str : List Char) (st : PState σ) :
    (print_converted_string S conv str st).1.nstores = st.nstores := by
  simp only [print_converted_string]
  split_ifs <;> rfl

@[simp] theorem print_converted_string_ub {σ : Type} (S : SinkOps σ) (conv : Conv)
    (str : List Char) (st : PState σ) :
    (print_converted_string S conv str st).1.ub = st.ub := by
  simp only [print_converted_string]
  split_ifs <;> rfl

@[simp] theorem print_converted_string_ok {σ : Type} (S : SinkOps σ) (conv : Conv)
    (str : List Char) (st : PState σ) :
    (print_converted_string S conv str st).2 = true := rfl

/-- `print_char_conversion`: `%c`; rejects any length modifier. -/
def print_char_conversion {σ : Type} (S : SinkOps σ) (conv : Conv)
    (st : PState σ) : PState σ × Bool :=
  if conv.length ≠ 0 then (st, false)
  else
    let r := vaWord st
    print_converted_string S conv [Char.ofNat (r.1 % 2 ^ 8)] r.2

/-- Index of the first NUL in a character list. -/
def findNul : List Char → Option Nat
  | [] => none
  | c :: cs => if c = nulChar then some 0 else (findNul cs).map (· + 1)

/-- `print_string_conversion`: `%s`; rejects any length modifier; the length
is the explicit precision or the distance to the first terminator. -/
def print_string_conversion {σ : Type} (S : SinkOps σ) (conv : Conv)
    (st : PState σ) : PState σ × Bool :=
  if conv.length ≠ 0 then (st, false)
  else
    match st.args with
    | Arg.str s :: rest =>
      let st := { st with args := rest }
      let max_len : Nat := if conv.explicit_prec then ((conv.prec % (2 ^ 64 : Nat)).toNat) else 2 ^ 64 - 1
      let str_len := (findNul ((s ++ [nulChar]).take max_len)).getD max_len
      print_converted_string S conv (s.take str_len) st
    | Arg.word _ :: rest =>
      -- an integer slot reinterpreted as `const char *`: undefined, flagged
      print_converted_string S conv [] { st with args := rest, ub := true }
    | [] => print_converted_string S conv [] { st with ub := true }

/-- The precision setup at the top of `print_diouxXp_conversions`: with no
explicit precision, a nonzero explicit width with the zero-pad flag and no
left-justify becomes a soft precision; otherwise the default precision is 1. -/
def setup_prec (conv : Conv) : Conv :=
  if ¬conv.explicit_prec then
    if conv.leading_zero ∧ conv.explicit_width ∧ conv.width ≠ 0 ∧ ¬conv.left_justify then
      { conv with prec := conv.width, soft_prec := true }
    else { conv with prec := 1 }
  else conv

/-- The `switch (conv->type)` at the top of `print_diouxXp_conversions`:
signedness, radix and capitalization per conversion letter. -/
def setup_conversion (conv : Conv) : Conv :=
  let conv := { conv with is_signed := false }
  if conv.type = 'd' then { conv with is_signed := true }
  else if conv.type = 'i' then { conv with is_signed := true }
  else if conv.type = 'u' then conv
  else if conv.type = 'o' then { conv with base := 8 }
  else if conv.type = 'x' then { conv with base := 16 }
  else if conv.type = 'X' then { conv with base := 16, is_caps := true }
  else if conv.type = 'p' then { conv with base := 16, is_alt := true }
  else conv

/-- `print_diouxXp_conversions`: the integer conversions. -/
def print_diouxXp_conversions {σ : Type} (S : SinkOps σ) (conv : Conv)
    (st : PState σ) : PState σ × Bool :=
  let conv := setup_prec (setup_conversion conv)
  let vr :=
    if conv.is_signed then get_signed_integer conv.length st
    else get_unsigned_integer conv.length st
  let s := (convert_integer_to_string vr.1 conv).2
  print_converted_string S conv s vr.2

/-- `store_character_count`: `%n`.  Every length case stores the running total
through the pointer argument; the pointee lives in caller memory, so the model
consumes the argument and records the total. -/
def store_character_count {σ : Type} (S : SinkOps σ) (conv : Conv)
    (st : PState σ) : PState σ × Bool :=
  let t := S.total st.sink
  let _ := conv.length
  match st.args with
  | _ :: rest => ({ st with args := rest, nstores := st.nstores ++ [t] }, true)
  | [] => ({ st with nstores := st.nstores ++ [t], ub := true }, true)

/-- `print_conversion`: dispatch on the conversion letter; anything else is a
failed conversion. -/
def print_conversion {σ : Type} (S : SinkOps σ) (conv : Conv)
    (st : PState σ) : PState σ × Bool :=
  if conv.type = 'n' then store_character_count S conv st
  else if conv.type = 'c' then print_char_conversion S conv st
  else if conv.type = 's' then print_string_conversion S conv st
  else if conv.type = 'd' ∨ conv.type = 'i' ∨ conv.type = 'u' ∨ conv.type = 'o' ∨
          conv.type = 'x' ∨ conv.type = 'X' ∨ conv.type = 'p' then
    print_diouxXp_conversions S conv st
  else (st, false)

/-! ## The core loop -/

/-- Scan a character list for `'%'`, reporting absolute positions from `i`. -/
def memchrFrom : List Char → Nat → Option Nat
  | [], _ => none
  | c :: cs, i => if c = '%' then some i else memchrFrom cs (i + 1)

/-- `memchr(fmt + start, '%', term - start)`: position of the first `'%'` at
or after `start`. -/
def memchrPct (fmt : List Char) (start : Nat) : Option Nat :=
  memchrFrom (fmt.drop start) start

/-- The characters at positions `[a, b)` of the format (position `fmt.length`
reads the terminating NUL). -/
def sliceOf (fmt : List Char) (a b : Nat) : List Char :=
  (List.range (b - a)).map (fun i => cAt fmt (a + i))

/-- The parse phase of one conversion specifier, starting just after the
`'%'` at `c1`: flags, width, precision, length, then the conversion letter.
Returns the position of the letter, the descriptor, and the argument/flag
state after any `*` fetches. -/
def parse_spec (fmt : List Char) (c1 : Nat) (args : List Arg) (ub : Bool) :
    Nat × Conv × List Arg × Bool :=
  let pf := parse_flags fmt (fmt.length + 2) c1 {}
  let pw := parse_width fmt (fmt.length + 2) pf.1 pf.2 args ub
  let pp := parse_prec fmt (fmt.length + 2) pw.1 pw.2.1 pw.2.2.1 pw.2.2.2
  let pl := parse_length fmt pp.1 pp.2.1
  (pl.1, { pl.2 with type := cAt fmt pl.1 }, pp.2.2.1, pp.2.2.2)

/-- Processing of one conversion specifier whose `'%'` sits at `conv_fmt`:
parse, dispatch, and on failure re-emit the consumed specifier text verbatim.
Returns the cursor position just past the specifier and the new state. -/
def process_spec {σ : Type} (S : SinkOps σ) (fmt : List Char) (conv_fmt : Nat)
    (st : PState σ) : Nat × PState σ :=
  let pr := parse_spec fmt (conv_fmt + 1) st.args st.ub
  let conv := pr.2.1
  let c6 := pr.1 + 1
  let st := { st with args := pr.2.2.1, ub := pr.2.2.2 }
  let pc := print_conversion S conv st
  let st :=
    if pc.2 then pc.1
    else { pc.1 with sink := S.copy pc.1.sink (sliceOf fmt conv_fmt c6) }
  (c6, st)

/-- The `printf_core` loop.  `pos` is the C `prev_fmt`/`curr_fmt` cursor at
the top of each iteration: the pending-literal start, from which the next
`'%'` is sought.  A cursor beyond the terminator makes the C code call
`memchr` with a negative (size_t-wrapped) length; that latches `ub`.
Fuel bounds the recursion; `fmt.length + 2` is always enough since every
iteration advances the cursor by at least two. -/
def printfLoop {σ : Type} (S : SinkOps σ) (fmt : List Char) :
    Nat → Nat → PState σ → PState σ
  | 0, _, st => { st with ub := true }
  | fuel + 1, pos, st =>
    if pos > fmt.length then { st with ub := true }
    else
      match memchrPct fmt pos with
      | none =>
        -- print the tail
        if pos ≠ fmt.length then { st with sink := S.copy st.sink (sliceOf fmt pos fmt.length) }
        else st
      | some curr =>
        -- output any batched up non-conversion characters
        let st := if pos ≠ curr then { st with sink := S.copy st.sink (sliceOf fmt pos curr) } else st
        -- look for exactly "%%"
        if cAt fmt (curr + 1) = '%' then
          let st := { st with sink := S.putc st.sink '%' }
          printfLoop S fmt fuel (curr + 2) st
        else
          let ps := process_spec S fmt curr st
          printfLoop S fmt fuel ps.1 ps.2

/-- `printf_core`: drive the loop over the whole format. -/
def printf_core {σ : Type} (S : SinkOps σ) (fmt : List Char) (p : σ)
    (args : List Arg) : PState σ :=
  printfLoop S fmt (fmt.length + 2) 0 { sink := p, args := args, nstores := [], ub := false }

/-! ## The stream printer and `simple_printf` -/

/-- The stream sink: the characters written so far and the running total. -/
structure FileSink where
  out : List Char
  total : Nat
deriving DecidableEq

/-- `printer_file_copy`. -/
def printer_file_copy (p : FileSink) (s : List Char) : FileSink :=
  { out := p.out ++ s, total := p.total + s.length }

/-- `printer_file_fill` (the 32-byte chunking is an I/O detail; the effect is
`len` copies of the fill character). -/
def printer_file_fill (p : FileSink) (c : Char) (len : Nat) : FileSink :=
  { out := p.out ++ List.replicate len c, total := p.total + len }

/-- `printer_file_putc`. -/
def printer_file_putc (p : FileSink) (c : Char) : FileSink :=
  { out := p.out ++ [c], total := p.total + 1 }

def fileOps : SinkOps FileSink :=
  { copy := printer_file_copy, fill := printer_file_fill,
    putc := printer_file_putc, total := (·.total) }

/-- `simple_printf`: print to the stream; the C return value is
`(simple_printf fmt args).sink.total`. -/
def simple_printf (fmt : List Char) (args : List Arg) : PState FileSink :=
  printf_core fileOps fmt { out := [], total := 0 } args

/-! ## The buffer printer and `simple_snprintf` -/

/-- The bounded-buffer sink.  Stores are recorded as `(offset, char)` pairs in
program order; `max` is `capacity - 1` (room saved for the NUL). -/
structure BufSink where
  writes : List (Nat × Char)
  max : Nat
  total : Nat
deriving DecidableEq

/-- The stores `memcpy(target, s, len)` performs, as offset/char pairs. -/
def writesFrom (k : Nat) : List Char → List (Nat × Char)
  | [] => []
  | c :: cs => (k, c) :: writesFrom (k + 1) cs

/-- `printer_buf_copy`: past capacity only the total advances; otherwise at
most `max - total` bytes are stored and the total still advances in full. -/
def printer_buf_copy (p : BufSink) (s : List Char) : BufSink :=
  if p.total ≥ p.max then { p with total := p.total + s.length }
  else
    let avail := p.max - p.total
    let target := p.total
    let len := if s.length > avail then avail else s.length
    { p with total := p.total + s.length,
             writes := p.writes ++ writesFrom target (s.take len) }

/-- `printer_buf_fill`. -/
def printer_buf_fill (p : BufSink) (c : Char) (n : Nat) : BufSink :=
  if p.total ≥ p.max then { p with total := p.total + n }
  else
    let avail := p.max - p.total
    let target := p.total
    let len := if n > avail then avail else n
    { p with total := p.total + n,
             writes := p.writes ++ writesFrom target (List.replicate len c) }

/-- `printer_buf_putc`. -/
def printer_buf_putc (p : BufSink) (c : Char) : BufSink :=
  if p.total ≥ p.max then { p with total := p.total + 1 }
  else { p with writes := p.writes ++ [(p.total, c)], total := p.total + 1 }

def bufOps : SinkOps BufSink :=
  { copy := printer_buf_copy, fill := printer_buf_fill,
    putc := printer_buf_putc, total := (·.total) }

/-- `simple_snprintf`: print to a buffer of `cap` bytes; `max` saves room for
the NUL, which is stored at `min(total, max)` after the run.  The C return
value is `(simple_snprintf cap fmt args).sink.total`. -/
def simple_snprintf (cap : Nat) (fmt : List Char) (args : List Arg) : PState BufSink :=
  let mx := if cap > 0 then cap - 1 else 0
  let st := printf_core bufOps fmt { writes := [], max := mx, total := 0 } args
  let endPos := min st.sink.total st.sink.max
  { st with sink := { st.sink with writes := st.sink.writes ++ [(endPos, nulChar)] } }

/-- Read the final content of a buffer cell: the last store to that offset. -/
def readBuf (ws : List (Nat × Char)) (i : Nat) : Option Char :=
  ws.foldl (fun acc w => if w.1 = i then some w.2 else acc) none

/-! ## Properties of the bounded sink operations -/

theorem writesFrom_mem : ∀ (l : List Char) (k : Nat) (w : Nat × Char),
    w ∈ writesFrom k l → k ≤ w.1 ∧ w.1 < k + l.length
  | [], _, _, hw => absurd hw (by simp [writesFrom])
  | c :: cs, k, w, hw => by
    rcases (by simpa [writesFrom] using hw : w = (k, c) ∨ w ∈ writesFrom (k + 1) cs) with h | h
    · subst h; simp
    · have := writesFrom_mem cs (k + 1) w h
      constructor <;> [omega; simpa [Nat.add_comm, Nat.add_assoc, Nat.add_left_comm] using this.2]

/-- New stores made by `printer_buf_copy` stay strictly below `max`. -/
theorem printer_buf_copy_spec (p : BufSink) (s : List Char) :
    (printer_buf_copy p s).total = p.total + s.length ∧
    (printer_buf_copy p s).max = p.max ∧
    ∀ w ∈ (printer_buf_copy p s).writes, w ∈ p.writes ∨ w.1 < p.max := by
  unfold printer_buf_copy
  split
  · exact ⟨rfl, rfl, fun w hw => Or.inl hw⟩
  · next hlt =>
    refine ⟨rfl, rfl, fun w hw => ?_⟩
    rcases List.mem_append.1 hw with h | h
    · exact Or.inl h
    · right
      have hb := writesFrom_mem _ _ _ h
      have hlen : (s.take (if s.length > p.max - p.total then p.max - p.total
          else s.length)).length ≤ p.max - p.total := by
        simp only [List.length_take]
        split <;> omega
      omega

/-- New stores made by `printer_buf_fill` stay strictly below `max`. -/
theorem printer_buf_fill_spec (p : BufSink) (c : Char) (n : Nat) :
    (printer_buf_fill p c n).total = p.total + n ∧
    (printer_buf_fill p c n).max = p.max ∧
    ∀ w ∈ (printer_buf_fill p c n).writes, w ∈ p.writes ∨ w.1 < p.max := by
  unfold printer_buf_fill
  split
  · exact ⟨rfl, rfl, fun w hw => Or.inl hw⟩
  · next hlt =>
    refine ⟨rfl, rfl, fun w hw => ?_⟩
    rcases List.mem_append.1 hw with h | h
    · exact Or.inl h
    · right
      have hb := writesFrom_mem _ _ _ h
      have hlen : (List.replicate (if n > p.max - p.total then p.max - p.total else n) c).length
          ≤ p.max - p.total := by
        simp only [List.length_replicate]
        split <;> omega
      omega

/-- The store made by `printer_buf_putc` stays strictly below `max`. -/
theorem printer_buf_putc_spec (p : BufSink) (c : Char) :
    (printer_buf_putc p c).total = p.total + 1 ∧
    (printer_buf_putc p c).max = p.max ∧
    ∀ w ∈ (printer_buf_putc p c).writes, w ∈ p.writes ∨ w.1 < p.max := by
  unfold printer_buf_putc
  split
  · exact ⟨rfl, rfl, fun w hw => Or.inl hw⟩
  · next hlt =>
    refine ⟨rfl, rfl, fun w hw => ?_⟩
    rcases List.mem_append.1 hw with h | h
    · exact Or.inl h
    · simp only [List.mem_singleton] at h
      subst h
      right; omega

/-- One request to the bounded sink: a block copy, a fill run, or a single
character (the three operations of `struct printer`). -/
inductive BufWrite where
  | copyW (s : List Char) : BufWrite
  | fillW (c : Char) (n : Nat) : BufWrite
  | putcW (c : Char) : BufWrite

/-- Apply one request through the corresponding `printer_buf_*` operation. -/
def applyBufWrite (p : BufSink) : BufWrite → BufSink
  | BufWrite.copyW s => printer_buf_copy p s
  | BufWrite.fillW c n => printer_buf_fill p c n
  | BufWrite.putcW c => printer_buf_putc p c

/-- The full requested length of one request. -/
def reqLen : BufWrite → Nat
  | BufWrite.copyW s => s.length
  | BufWrite.fillW _ n => n
  | BufWrite.putcW _ => 1

theorem applyBufWrite_spec (p : BufSink) (op : BufWrite) :
    (applyBufWrite p op).total = p.total + reqLen op ∧
    (applyBufWrite p op).max = p.max ∧
    ∀ w ∈ (applyBufWrite p op).writes, w ∈ p.writes ∨ w.1 < p.max := by
  cases op with
  | copyW s => exact printer_buf_copy_spec p s
  | fillW c n => exact printer_buf_fill_spec p c n
  | putcW c => exact printer_buf_putc_spec p c

theorem foldl_applyBufWrite_spec : ∀ (ops : List BufWrite) (p : BufSink),
    (∀ w ∈ p.writes, w.1 < p.max) →
    (ops.foldl applyBufWrite p).total = p.total + (ops.map reqLen).sum ∧
    (ops.foldl applyBufWrite p).max = p.max ∧
    ∀ w ∈ (ops.foldl applyBufWrite p).writes, w.1 < p.max
  | [], p, h0 => ⟨by simp, rfl, h0⟩
  | op :: ops, p, h0 => by
    obtain ⟨h1, h2, h3⟩ := applyBufWrite_spec p op
    have hinv : ∀ w ∈ (applyBufWrite p op).writes, w.1 < (applyBufWrite p op).max := by
      intro w hw
      rw [h2]
      rcases h3 w hw with h | h
      · exact h0 w h
      · exact h
    obtain ⟨g1, g2, g3⟩ := foldl_applyBufWrite_spec ops (applyBufWrite p op) hinv
    refine ⟨?_, by rw [List.foldl_cons, g2, h2], ?_⟩
    · rw [List.foldl_cons, g1, h1]; simp [Nat.add_assoc]
    · intro w hw
      have := g3 w (by simpa [List.foldl_cons] using hw)
      rwa [h2] at this

/-- **C7.**  On the bounded sink, no operation ever stores a byte at an offset
at or beyond the sink's capacity `max`; each operation advances the running
total by the full requested length even when bytes are dropped, so after any
sequence of operations the total equals the full logical output length and is
monotonically non-decreasing. -/
theorem bounded_sink_invariant :
    (∀ (p : BufSink) (s : List Char),
        (printer_buf_copy p s).total = p.total + s.length ∧
        ∀ w ∈ (printer_buf_copy p s).writes, w ∈ p.writes ∨ w.1 < p.max) ∧
    (∀ (p : BufSink) (c : Char) (n : Nat),
        (printer_buf_fill p c n).total = p.total + n ∧
        ∀ w ∈ (printer_buf_fill p c n).writes, w ∈ p.writes ∨ w.1 < p.max) ∧
    (∀ (p : BufSink) (c : Char),
        (printer_buf_putc p c).total = p.total + 1 ∧
        ∀ w ∈ (printer_buf_putc p c).writes, w ∈ p.writes ∨ w.1 < p.max) ∧
    (∀ (ops : List BufWrite) (p : BufSink),
        (∀ w ∈ p.writes, w.1 < p.max) →
        (ops.foldl applyBufWrite p).total = p.total + (ops.map reqLen).sum ∧
        p.total ≤ (ops.foldl applyBufWrite p).total ∧
        ∀ w ∈ (ops.foldl applyBufWrite p).writes, w.1 < p.max) :=
  ⟨fun p s => ⟨(printer_buf_copy_spec p s).1, (printer_buf_copy_spec p s).2.2⟩,
   fun p c n => ⟨(printer_buf_fill_spec p c n).1, (printer_buf_fill_spec p c n).2.2⟩,
   fun p c => ⟨(printer_buf_putc_spec p c).1, (printer_buf_putc_spec p c).2.2⟩,
   fun ops p h0 =>
     ⟨(foldl_applyBufWrite_spec ops p h0).1,
      by rw [(foldl_applyBufWrite_spec ops p h0).1]; omega,
      (foldl_applyBufWrite_spec ops p h0).2.2⟩⟩

/-! ## Sink simulation

`printf_core` interacts with its sink only through the three write operations
and the running total.  Consequently two runs over sinks whose operations
advance in lock-step stay related throughout: same remaining arguments, same
`%n` records, same flag, related sinks.  This is the bridge between the
stream printer, the buffer printer, and a bare character counter. -/

section Simulation

variable {σ₁ σ₂ : Type}

/-- The two sinks' operations preserve `R` in lock-step, and `R`-related
sinks agree on the running total. -/
def SinkSim (S₁ : SinkOps σ₁) (S₂ : SinkOps σ₂) (R : σ₁ → σ₂ → Prop) : Prop :=
  (∀ s₁ s₂ cs, R s₁ s₂ → R (S₁.copy s₁ cs) (S₂.copy s₂ cs)) ∧
  (∀ s₁ s₂ c n, R s₁ s₂ → R (S₁.fill s₁ c n) (S₂.fill s₂ c n)) ∧
  (∀ s₁ s₂ c, R s₁ s₂ → R (S₁.putc s₁ c) (S₂.putc s₂ c)) ∧
  (∀ s₁ s₂, R s₁ s₂ → S₁.total s₁ = S₂.total s₂)

/-- Related run states: `R`-related sinks, identical remaining arguments,
`%n` records, and flag. -/
def PRel (R : σ₁ → σ₂ → Prop) (st₁ : PState σ₁) (st₂ : PState σ₂) : Prop :=
  R st₁.sink st₂.sink ∧ st₁.args = st₂.args ∧ st₁.nstores = st₂.nstores ∧ st₁.ub = st₂.ub

variable {S₁ : SinkOps σ₁} {S₂ : SinkOps σ₂} {R : σ₁ → σ₂ → Prop}

theorem vaWord_sim {st₁ : PState σ₁} {st₂ : PState σ₂} (h : PRel R st₁ st₂) :
    (vaWord st₁).1 = (vaWord st₂).1 ∧ PRel R (vaWord st₁).2 (vaWord st₂).2 := by
  obtain ⟨hR, ha, hn, hu⟩ := h
  unfold vaWord
  rw [ha]
  cases harg : st₂.args with
  | nil => exact ⟨rfl, hR, by simp [ha, harg], by simp [hn], by simp [hu]⟩
  | cons a rest =>
    cases a with
    | word v => exact ⟨rfl, hR, by simp, by simp [hn], by simp [hu]⟩
    | str s => exact ⟨rfl, hR, by simp, by simp [hn], by simp [hu]⟩

theorem get_signed_integer_sim {st₁ : PState σ₁} {st₂ : PState σ₂}
    (h : PRel R st₁ st₂) (len : Int) :
    (get_signed_integer len st₁).1 = (get_signed_integer len st₂).1 ∧
    PRel R (get_signed_integer len st₁).2 (get_signed_integer len st₂).2 := by
  obtain ⟨hv, hst⟩ := vaWord_sim h
  simp only [get_signed_integer]
  exact ⟨by rw [hv], hst⟩

theorem get_unsigned_integer_sim {st₁ : PState σ₁} {st₂ : PState σ₂}
    (h : PRel R st₁ st₂) (len : Int) :
    (get_unsigned_integer len st₁).1 = (get_unsigned_integer len st₂).1 ∧
    PRel R (get_unsigned_integer len st₁).2 (get_unsigned_integer len st₂).2 := by
  obtain ⟨hv, hst⟩ := vaWord_sim h
  simp only [get_unsigned_integer]
  exact ⟨by rw [hv], hst⟩

theorem print_converted_string_sim (hs : SinkSim S₁ S₂ R) (conv : Conv) (str : List Char)
    {st₁ : PState σ₁} {st₂ : PState σ₂} (h : PRel R st₁ st₂) :
    PRel R (print_converted_string S₁ conv str st₁).1 (print_converted_string S₂ conv str st₂).1 ∧
    (print_converted_string S₁ conv str st₁).2 = (print_converted_string S₂ conv str st₂).2 := by
  obtain ⟨hR, ha, hn, hu⟩ := h
  obtain ⟨hc, hf, hp, ht⟩ := hs
  simp only [print_converted_string]
  refine ⟨⟨?_, ?_, ?_, ?_⟩, trivial⟩ <;> split_ifs <;>
    first
      | exact ha
      | exact hn
      | exact hu
      | exact hc _ _ _ (hf _ _ _ _ hR)
      | exact hf _ _ _ _ (hc _ _ _ hR)
      | exact hc _ _ _ hR
      | exact hf _ _ _ _ (hc _ _ _ (hf _ _ _ _ hR))

theorem print_char_conversion_sim (hs : SinkSim S₁ S₂ R) (conv : Conv)
    {st₁ : PState σ₁} {st₂ : PState σ₂} (h : PRel R st₁ st₂) :
    PRel R (print_char_conversion S₁ conv st₁).1 (print_char_conversion S₂ conv st₂).1 ∧
    (print_char_conversion S₁ conv st₁).2 = (print_char_conversion S₂ conv st₂).2 := by
  obtain ⟨hv, hst⟩ := vaWord_sim h
  simp only [print_char_conversion]
  split_ifs with hl
  · exact ⟨h, by trivial⟩
  · rw [hv]
    exact print_converted_string_sim hs _ _ hst

theorem print_string_conversion_sim (hs : SinkSim S₁ S₂ R) (conv : Conv)
    {st₁ : PState σ₁} {st₂ : PState σ₂} (h : PRel R st₁ st₂) :
    PRel R (print_string_conversion S₁ conv st₁).1 (print_string_conversion S₂ conv st₂).1 ∧
    (print_string_conversion S₁ conv st₁).2 = (print_string_conversion S₂ conv st₂).2 := by
  obtain ⟨hR, ha, hn, hu⟩ := h
  simp only [print_string_conversion]
  by_cases hl : conv.length ≠ 0
  · simp only [if_pos hl]
    exact ⟨⟨hR, ha, hn, hu⟩, by trivial⟩
  · simp only [if_neg hl]
    rw [ha]
    cases harg : st₂.args with
    | nil =>
      exact print_converted_string_sim hs _ _ ⟨hR, by simp [ha, harg], by simp [hn], by simp [hu]⟩
    | cons a rest =>
      cases a with
      | word v =>
        exact print_converted_string_sim hs _ _ ⟨hR, by simp, by simp [hn], by simp [hu]⟩
      | str s =>
        exact print_converted_string_sim hs _ _ ⟨hR, by simp, by simp [hn], by simp [hu]⟩

theorem print_diouxXp_conversions_sim (hs : SinkSim S₁ S₂ R) (conv : Conv)
    {st₁ : PState σ₁} {st₂ : PState σ₂} (h : PRel R st₁ st₂) :
    PRel R (print_diouxXp_conversions S₁ conv st₁).1 (print_diouxXp_conversions S₂ conv st₂).1 ∧
    (print_diouxXp_conversions S₁ conv st₁).2 = (print_diouxXp_conversions S₂ conv st₂).2 := by
  simp only [print_diouxXp_conversions]
  by_cases hsg : (setup_prec (setup_conversion conv)).is_signed = true
  · simp only [hsg, ite_true, reduceIte]
    obtain ⟨hv, hst⟩ := get_signed_integer_sim h (setup_prec (setup_conversion conv)).length
    rw [hv]
    exact print_converted_string_sim hs _ _ hst
  · simp only [hsg, ite_false, reduceIte, if_neg, Bool.not_eq_true]
    obtain ⟨hv, hst⟩ := get_unsigned_integer_sim h (setup_prec (setup_conversion conv)).length
    rw [hv]
    exact print_converted_string_sim hs _ _ hst

theorem store_character_count_sim (hs : SinkSim S₁ S₂ R) (conv : Conv)
    {st₁ : PState σ₁} {st₂ : PState σ₂} (h : PRel R st₁ st₂) :
    PRel R (store_character_count S₁ conv st₁).1 (store_character_count S₂ conv st₂).1 ∧
    (store_character_count S₁ conv st₁).2 = (store_character_count S₂ conv st₂).2 := by
  obtain ⟨hR, ha, hn, hu⟩ := h
  have ht : S₁.total st₁.sink = S₂.total st₂.sink := hs.2.2.2 _ _ hR
  simp only [store_character_count]
  rw [ha, ht, hn]
  cases harg : st₂.args with
  | nil => exact ⟨⟨hR, by simp [ha, harg], by simp, by simp [hu]⟩, rfl⟩
  | cons a rest => exact ⟨⟨hR, by simp, by simp, by simp [hu]⟩, rfl⟩

theorem print_conversion_sim (hs : SinkSim S₁ S₂ R) (conv : Conv)
    {st₁ : PState σ₁} {st₂ : PState σ₂} (h : PRel R st₁ st₂) :
    PRel R (print_conversion S₁ conv st₁).1 (print_conversion S₂ conv st₂).1 ∧
    (print_conversion S₁ conv st₁).2 = (print_conversion S₂ conv st₂).2 := by
  simp only [print_conversion]
  by_cases h1 : conv.type = 'n'
  · simp only [h1, ite_true, reduceIte]; exact store_character_count_sim hs conv h
  · simp only [h1, ite_false, reduceIte, if_neg, not_false_iff]
    by_cases h2 : conv.type = 'c'
    · simp only [h2, ite_true, reduceIte]; exact print_char_conversion_sim hs conv h
    · simp only [h2, ite_false, reduceIte, if_neg, not_false_iff]
      by_cases h3 : conv.type = 's'
      · simp only [h3, ite_true, reduceIte]; exact print_string_conversion_sim hs conv h
      · simp only [h3, ite_false, reduceIte, if_neg, not_false_iff]
        by_cases h4 : conv.type = 'd' ∨ conv.type = 'i' ∨ conv.type = 'u' ∨ conv.type = 'o' ∨
            conv.type = 'x' ∨ conv.type = 'X' ∨ conv.type = 'p'
        · simp only [h4, ite_true, reduceIte]; exact print_diouxXp_conversions_sim hs conv h
        · simp only [h4, ite_false, reduceIte, if_neg, not_false_iff]; exact ⟨h, by trivial⟩

theorem process_spec_sim (hs : SinkSim S₁ S₂ R) (fmt : List Char) (conv_fmt : Nat)
    {st₁ : PState σ₁} {st₂ : PState σ₂} (h : PRel R st₁ st₂) :
    (process_spec S₁ fmt conv_fmt st₁).1 = (process_spec S₂ fmt conv_fmt st₂).1 ∧
    PRel R (process_spec S₁ fmt conv_fmt st₁).2 (process_spec S₂ fmt conv_fmt st₂).2 := by
  obtain ⟨hR, ha, hn, hu⟩ := h
  simp only [process_spec]
  rw [ha, hu]
  refine ⟨rfl, ?_⟩
  have hmid : PRel R
      { st₁ with args := (parse_spec fmt (conv_fmt + 1) st₂.args st₂.ub).2.2.1,
                 ub := (parse_spec fmt (conv_fmt + 1) st₂.args st₂.ub).2.2.2 }
      { st₂ with args := (parse_spec fmt (conv_fmt + 1) st₂.args st₂.ub).2.2.1,
                 ub := (parse_spec fmt (conv_fmt + 1) st₂.args st₂.ub).2.2.2 } :=
    ⟨hR, rfl, hn, rfl⟩
  obtain ⟨cR, cok⟩ := print_conversion_sim hs
    (parse_spec fmt (conv_fmt + 1) st₂.args st₂.ub).2.1 hmid
  rw [cok]
  split_ifs with hok
  · exact cR
  · obtain ⟨dR, da, dn, du⟩ := cR
    exact ⟨hs.1 _ _ _ dR, da, dn, du⟩

theorem printfLoop_sim (hs : SinkSim S₁ S₂ R) (fmt : List Char) :
    ∀ (fuel pos : Nat) {st₁ : PState σ₁} {st₂ : PState σ₂}, PRel R st₁ st₂ →
    PRel R (printfLoop S₁ fmt fuel pos st₁) (printfLoop S₂ fmt fuel pos st₂)
  | 0, pos, st₁, st₂, h => by
    obtain ⟨hR, ha, hn, hu⟩ := h
    exact ⟨hR, ha, hn, rfl⟩
  | fuel + 1, pos, st₁, st₂, h => by
    obtain ⟨hR, ha, hn, hu⟩ := h
    unfold printfLoop
    by_cases hpos : pos > fmt.length
    · simp only [hpos, ite_true, reduceIte]
      exact ⟨hR, ha, hn, rfl⟩
    · simp only [hpos, ite_false, reduceIte, if_neg, not_false_iff]
      cases hm : memchrPct fmt pos with
      | none =>
        by_cases he : pos ≠ fmt.length
        · simp only [if_pos he]
          exact ⟨hs.1 _ _ _ hR, ha, hn, hu⟩
        · simp only [if_neg he]
          exact ⟨hR, ha, hn, hu⟩
      | some curr =>
        have hlit : PRel R
            (if pos ≠ curr then { st₁ with sink := S₁.copy st₁.sink (sliceOf fmt pos curr) } else st₁)
            (if pos ≠ curr then { st₂ with sink := S₂.copy st₂.sink (sliceOf fmt pos curr) } else st₂) := by
          by_cases hp : pos ≠ curr
          · simp only [if_pos hp]
            exact ⟨hs.1 _ _ _ hR, ha, hn, hu⟩
          · simp only [if_neg hp]
            exact ⟨hR, ha, hn, hu⟩
        by_cases hpc : cAt fmt (curr + 1) = '%'
        · simp only [hpc, ite_true, reduceIte]
          obtain ⟨gR, ga, gn, gu⟩ := hlit
          exact printfLoop_sim hs fmt fuel (curr + 2) ⟨hs.2.2.1 _ _ _ gR, ga, gn, gu⟩
        · simp only [hpc, ite_false, reduceIte, if_neg, not_false_iff]
          obtain ⟨hps1, hps2⟩ := process_spec_sim hs fmt curr hlit
          rw [hps1]
          exact printfLoop_sim hs fmt fuel _ hps2

/-- Runs of `printf_core` over lock-step sinks from `R`-related initial sinks
and identical arguments end `R`-related, with identical remaining arguments,
`%n` records and flag. -/
theorem printf_core_sim (hs : SinkSim S₁ S₂ R) (fmt : List Char) (args : List Arg)
    (p₁ : σ₁) (p₂ : σ₂) (h : R p₁ p₂) :
    PRel R (printf_core S₁ fmt p₁ args) (printf_core S₂ fmt p₂ args) :=
  printfLoop_sim hs fmt (fmt.length + 2) 0 ⟨h, rfl, rfl, rfl⟩

end Simulation

/-- Witness for `bounded_sink_invariant` at a concrete operation sequence on a
capacity-2 sink. -/
theorem bounded_sink_invariant_witness :
    (([BufWrite.copyW ['a','b','c'], BufWrite.fillW 'x' 3,
       BufWrite.putcW 'z'].foldl applyBufWrite ⟨[], 2, 0⟩).total = 0 + 7) ∧
    0 ≤ (([BufWrite.copyW ['a','b','c'], BufWrite.fillW 'x' 3,
       BufWrite.putcW 'z'].foldl applyBufWrite ⟨[], 2, 0⟩)).total := by
  have h := bounded_sink_invariant.2.2.2
    [BufWrite.copyW ['a','b','c'], BufWrite.fillW 'x' 3, BufWrite.putcW 'z']
    ⟨[], 2, 0⟩ (by intro w hw; simp at hw)
  exact ⟨by simpa using h.1, h.2.1⟩

/-! ## Properties of the integer renderer -/

theorem convDigitsAux_ne_nil (caps : Bool) (base : Nat) :
    ∀ (fuel v : Nat), convDigitsAux caps base fuel v ≠ []
  | 0, v => by simp [convDigitsAux]
  | fuel + 1, v => by
    rw [convDigitsAux]
    split <;> simp

/-- The digit loop always produces at least one digit. -/
theorem convDigits_ne_nil (caps : Bool) (base : Nat) (v : Nat) :
    convDigits caps base v ≠ [] := convDigitsAux_ne_nil caps base v v

theorem convDigitsAux_length_le (caps : Bool) (base : Nat) (hb : 2 ≤ base) :
    ∀ (fuel k v : Nat), v < base ^ (k + 1) →
      (convDigitsAux caps base fuel v).length ≤ k + 1
  | 0, _, _, _ => by simp [convDigitsAux]
  | fuel + 1, k, v, hv => by
    rw [convDigitsAux]
    split
    · next hcond =>
      match k with
      | 0 =>
        rw [pow_one] at hv
        omega
      | k' + 1 =>
        have hpow : base ^ (k' + 1 + 1) = base * base ^ (k' + 1) := by ring
        have hdiv : v / base < base ^ (k' + 1) :=
          Nat.div_lt_of_lt_mul (by omega)
        have := convDigitsAux_length_le caps base hb fuel k' (v / base) hdiv
        simp only [List.length_append, List.length_singleton]
        omega
    · simp

/-- A 64-bit magnitude has at most 22 digits in base 8, 10 or 16. -/
theorem convDigits_length_le (caps : Bool) (base : Nat) (v : Nat)
    (hb : 8 ≤ base) (hv : v < 2 ^ 64) :
    (convDigits caps base v).length ≤ 22 := by
  have h1 : v < base ^ 22 :=
    lt_of_lt_of_le hv (le_trans (by norm_num) (Nat.pow_le_pow_left hb 22))
  exact convDigitsAux_length_le caps base (by omega) v 21 v h1

theorem resolveSign_not_signed (conv : Conv) (v : Nat) (h : conv.is_signed = false) :
    resolveSign conv v = (none, v) := by
  simp [resolveSign, h]

theorem resolveSign_isSome_signed (conv : Conv) (v : Nat)
    (h : (resolveSign conv v).1.isSome = true) : conv.is_signed = true := by
  by_cases hs : conv.is_signed = true
  · exact hs
  · rw [resolveSign_not_signed conv v (by simpa using hs)] at h
    simp at h

theorem resolveSign_snd_lt (conv : Conv) (v : Nat) (hv : v < 2 ^ 64) :
    (resolveSign conv v).2 < 2 ^ 64 := by
  unfold resolveSign
  split_ifs <;> simp <;> omega

/-- Bounds on the padding-start index: positive, and large enough to leave
room for the prefixes and sign that the corresponding guard conditions cover. -/
theorem precIdx_bounds (prec : Int) (is_alt : Bool) (base : Nat) (sp : Bool) :
    1 ≤ precIdx prec is_alt base sp ∧
    ((is_alt = true ∧ base = 16) → 3 ≤ precIdx prec is_alt base sp) ∧
    ((is_alt = true ∧ base = 8) → 2 ≤ precIdx prec is_alt base sp) ∧
    (sp = true → 2 ≤ precIdx prec is_alt base sp) := by
  unfold precIdx
  split_ifs <;> simp_all <;> omega

/-- Every write of the render phase lands inside the scratch buffer: the
first-character index is non-negative and the text length is `47 - idx`
(so at most `INT_BUF_SIZE - 1` with the NUL at index 47). -/
theorem render_integer_bounds (conv : Conv) (sc : Option Char) (digits : List Char)
    (hd1 : 1 ≤ digits.length) (hd2 : digits.length ≤ 22)
    (hhex : conv.is_alt = true ∧ conv.base = 16 → sc = none)
    (hoct : conv.is_alt = true ∧ conv.base = 8 → sc = none) :
    0 ≤ (render_integer conv sc digits).1 ∧
    ((render_integer conv sc digits).2.length : Int) = 47 - (render_integer conv sc digits).1 := by
  obtain ⟨hpi1, hpiH, hpiO, hpiS⟩ := precIdx_bounds
    (soft_prec_adjust conv sc (digits.headD nulChar)) conv.is_alt conv.base sc.isSome
  simp only [render_integer]
  generalize hg : precIdx (soft_prec_adjust conv sc (digits.headD nulChar))
    conv.is_alt conv.base sc.isSome = pi
  rw [hg] at hpi1 hpiH hpiO hpiS
  clear hg
  cases sc with
  | none =>
    simp only [Option.isSome_none, Bool.false_eq_true, if_false]
    by_cases hHC : conv.is_alt = true ∧ conv.base = 16
    · have h3 : 3 ≤ pi := hpiH hHC
      have hOC : ¬(conv.is_alt = true ∧ conv.base = 8 ∧
          (List.replicate (47 - (digits.length : Int) -
              (if pi ≤ 47 - (digits.length : Int) then pi - 1
               else 47 - (digits.length : Int))).toNat '0' ++ digits).headD nulChar ≠ '0') := by
        rintro ⟨_, hb8, _⟩
        rw [hHC.2] at hb8
        omega
      simp only [if_pos hHC, if_neg hOC]
      split_ifs <;>
        simp only [List.length_append, List.length_replicate, List.length_cons] <;>
        push_cast <;> omega
    · simp only [if_neg hHC]
      by_cases hOC : conv.is_alt = true ∧ conv.base = 8
      · have h2 : 2 ≤ pi := hpiO hOC
        split_ifs <;>
          simp only [List.length_append, List.length_replicate, List.length_cons] <;>
          push_cast <;> omega
      · have hOC' : ¬(conv.is_alt = true ∧ conv.base = 8 ∧
            (List.replicate (47 - (digits.length : Int) -
                (if pi ≤ 47 - (digits.length : Int) then pi - 1
                 else 47 - (digits.length : Int))).toNat '0' ++ digits).headD nulChar ≠ '0') :=
          fun h => hOC ⟨h.1, h.2.1⟩
        simp only [if_neg hOC']
        split_ifs <;>
          simp only [List.length_append, List.length_replicate, List.length_cons] <;>
          push_cast <;> omega
  | some c =>
    have hne : ¬((some c : Option Char) = none) := by simp
    have hHC : ¬(conv.is_alt = true ∧ conv.base = 16) := fun h => hne (hhex h)
    have hOC : ¬(conv.is_alt = true ∧ conv.base = 8) := fun h => hne (hoct h)
    have h2 : 2 ≤ pi := hpiS (by simp)
    have hOC' : ¬(conv.is_alt = true ∧ conv.base = 8 ∧
        (List.replicate (47 - (digits.length : Int) -
            (if pi ≤ 47 - (digits.length : Int) then pi - 1
             else 47 - (digits.length : Int))).toNat '0' ++ digits).headD nulChar ≠ '0') :=
      fun h => hOC ⟨h.1, h.2.1⟩
    simp only [Option.isSome_some, if_neg hHC, if_neg hOC', if_true]
    split_ifs <;>
      simp only [List.length_append, List.length_replicate, List.length_cons] <;>
      push_cast <;> omega

/-- The digit run is a suffix of the rendered text: everything else is
prepended in front of it. -/
theorem render_integer_suffix (conv : Conv) (sc : Option Char) (digits : List Char) :
    ∃ pre, (render_integer conv sc digits).2 = pre ++ digits := by
  simp only [render_integer]
  rcases sc with _ | c <;> split_ifs <;>
    first
      | exact ⟨List.replicate _ '0', rfl⟩
      | exact ⟨'0' :: List.replicate _ '0', rfl⟩
      | exact ⟨'0' :: 'X' :: List.replicate _ '0', rfl⟩
      | exact ⟨'0' :: 'x' :: List.replicate _ '0', rfl⟩
      | exact ⟨'0' :: 'X' :: '0' :: List.replicate _ '0', rfl⟩
      | exact ⟨'0' :: 'x' :: '0' :: List.replicate _ '0', rfl⟩
      | exact ⟨c :: List.replicate _ '0', rfl⟩
      | exact ⟨c :: '0' :: List.replicate _ '0', rfl⟩
      | exact ⟨c :: '0' :: 'X' :: List.replicate _ '0', rfl⟩
      | exact ⟨c :: '0' :: 'x' :: List.replicate _ '0', rfl⟩
      | exact ⟨c :: '0' :: 'X' :: '0' :: List.replicate _ '0', rfl⟩
      | exact ⟨c :: '0' :: 'x' :: '0' :: List.replicate _ '0', rfl⟩

/-! ## The claims -/

/-- **C8.**  For every integer conversion reachable from a format specifier
(radix 8, 10 or 16, and signed conversions only in radix 10) and every
requested precision value — including precisions far larger than the scratch
buffer, such as `%.1000d` — the zero padding is clamped so that the rendered
text (sign, prefix, zeros, digits) never exceeds the fixed scratch capacity:
the first-character index stays non-negative, the text length is exactly
`47 - idx`, and so the text plus its terminating NUL fits in
`INT_BUF_SIZE = 48` bytes. -/
theorem claim_C8_scratch_buffer_safe (value : Nat) (conv : Conv)
    (hv : value < 2 ^ 64)
    (hb : conv.base = 8 ∨ conv.base = 10 ∨ conv.base = 16)
    (hsb : conv.is_signed = true → conv.base = 10) :
    0 ≤ (convert_integer_to_string value conv).1 ∧
    ((convert_integer_to_string value conv).2.length : Int) =
      47 - (convert_integer_to_string value conv).1 ∧
    (convert_integer_to_string value conv).2.length ≤ INT_BUF_SIZE - 1 := by
  simp only [convert_integer_to_string]
  split_ifs with hz
  · simp [INT_BUF_SIZE]
  · have h8 : 8 ≤ conv.base := by rcases hb with h | h | h <;> omega
    have hmag := resolveSign_snd_lt conv value hv
    have hd1 : 1 ≤ (convDigits conv.is_caps conv.base (resolveSign conv value).2).length :=
      List.length_pos.2 (convDigits_ne_nil _ _ _)
    have hd2 := convDigits_length_le conv.is_caps conv.base _ h8 hmag
    have hsnone : conv.is_signed = false → (resolveSign conv value).1 = none := by
      intro hs
      rw [resolveSign_not_signed conv value hs]
    have hhex : conv.is_alt = true ∧ conv.base = 16 → (resolveSign conv value).1 = none := by
      intro h
      refine hsnone ?_
      by_contra hs
      have h10 := hsb (by simpa using hs)
      rw [h.2] at h10
      omega
    have hoct : conv.is_alt = true ∧ conv.base = 8 → (resolveSign conv value).1 = none := by
      intro h
      refine hsnone ?_
      by_contra hs
      have h10 := hsb (by simpa using hs)
      rw [h.2] at h10
      omega
    obtain ⟨g1, g2⟩ := render_integer_bounds conv (resolveSign conv value).1
      (convDigits conv.is_caps conv.base (resolveSign conv value).2) hd1 hd2 hhex hoct
    refine ⟨g1, g2, ?_⟩
    simp only [INT_BUF_SIZE]
    omega

/-- Witness for `claim_C8_scratch_buffer_safe` at value 5 with precision 1000
(the `%.1000d` case: 46 padding zeros and one digit exactly fill the
buffer). -/
theorem claim_C8_witness :
    0 ≤ (convert_integer_to_string 5 { prec := 1000 }).1 ∧
    ((convert_integer_to_string 5 { prec := 1000 }).2.length : Int) =
      47 - (convert_integer_to_string 5 { prec := 1000 }).1 ∧
    (convert_integer_to_string 5 { prec := 1000 }).2.length ≤ INT_BUF_SIZE - 1 :=
  claim_C8_scratch_buffer_safe 5 { prec := 1000 } (by norm_num)
    (Or.inr (Or.inl rfl)) (by simp)

/-- **C6.**  The rendered digit string of an integer conversion is empty
exactly when the value is zero, the precision is (explicitly) zero, and the
conversion is not alternate-form octal; in every other case the digit run —
a non-empty suffix of the rendered text — contributes at least one digit.
Concretely, `format("[%.d]", 0) == "[]"`. -/
theorem claim_C6_zero_empty :
    (∀ (value : Nat) (conv : Conv),
      ((convert_integer_to_string value conv).2 = [] ↔
        (value = 0 ∧ conv.prec = 0 ∧ ¬(conv.is_alt = true ∧ conv.base = 8))) ∧
      (¬(value = 0 ∧ conv.prec = 0 ∧ ¬(conv.is_alt = true ∧ conv.base = 8)) →
        ∃ pre, (convert_integer_to_string value conv).2 =
          pre ++ convDigits conv.is_caps conv.base (resolveSign conv value).2 ∧
          convDigits conv.is_caps conv.base (resolveSign conv value).2 ≠ [])) ∧
    String.mk (simple_printf "[%.d]".toList [Arg.word 0]).sink.out = "[]" := by
  have hsuf : ∀ (value : Nat) (conv : Conv),
      ¬(value = 0 ∧ conv.prec = 0 ∧ ¬(conv.is_alt = true ∧ conv.base = 8)) →
      ∃ pre, (convert_integer_to_string value conv).2 =
        pre ++ convDigits conv.is_caps conv.base (resolveSign conv value).2 ∧
        convDigits conv.is_caps conv.base (resolveSign conv value).2 ≠ [] := by
    intro value conv hc
    simp only [convert_integer_to_string]
    rw [if_neg hc]
    obtain ⟨pre, hp⟩ := render_integer_suffix conv (resolveSign conv value).1
      (convDigits conv.is_caps conv.base (resolveSign conv value).2)
    exact ⟨pre, hp, convDigits_ne_nil _ _ _⟩
  refine ⟨fun value conv => ⟨⟨?_, ?_⟩, hsuf value conv⟩, by decide⟩
  · intro h
    by_contra hc
    obtain ⟨pre, hp, hne⟩ := hsuf value conv hc
    rw [hp] at h
    exact hne (List.append_eq_nil.1 h).2
  · intro h
    simp only [convert_integer_to_string]
    rw [if_pos h]

/-- Witness for `claim_C6_zero_empty` at value 7 with precision 1: the digit
run `"7"` is non-empty. -/
theorem claim_C6_witness :
    (convert_integer_to_string 7 { prec := 1 }).2
      = [] ++ convDigits false 10 (resolveSign { prec := 1 } 7).2 ∧
    1 ≤ (convDigits false 10 (resolveSign { prec := 1 } 7).2).length := by
  obtain ⟨pre, hp, hne⟩ := (claim_C6_zero_empty.1 7 { prec := 1 }).2 (by decide)
  exact ⟨by decide, List.length_pos.2 hne⟩

/-- Small-value facts about the argument fetches used by the width/precision
parsers. -/
theorem signedOf_32_of_lt (v : Nat) (h : v < 2 ^ 31) : signedOf 32 v = v := by
  simp only [signedOf]
  rw [Nat.mod_eq_of_lt (by omega)]
  rw [if_pos (by omega)]

theorem toShort_of_lt (v : Nat) (h : v < 2 ^ 15) : toShort (v : Int) = v := by
  simp only [toShort, wrapSigned]
  omega

/-- **C1 (counterexample).**  Alternate-form hex of zero does carry the `0x`
prefix: `format("[%#x]", 0)` yields `"[0x0]"`, not `"[0]"` as the claim
states. -/
theorem claim_C1_counterexample :
    String.mk (simple_printf "[%#x]".toList [Arg.word 0]).sink.out ≠ "[0]" := by decide

/-- **C1 (amended).**  The alternate-form hex prefix is unconditional: whenever
the digit field is non-empty (that is, except when the value is 0 with an
explicit precision of 0), the rendered text starts with `0x`/`0X` — including
for the value zero.  `format("[%#x]", 0) == "[0x0]"` and
`format("[%#x]", 255) == "[0xff]"`. -/
theorem claim_C1_amended :
    String.mk (simple_printf "[%#x]".toList [Arg.word 0]).sink.out = "[0x0]" ∧
    String.mk (simple_printf "[%#x]".toList [Arg.word 255]).sink.out = "[0xff]" ∧
    (∀ (v : Nat) (conv : Conv), conv.is_alt = true → conv.base = 16 →
      conv.is_signed = false → ¬(v = 0 ∧ conv.prec = 0) →
      (convert_integer_to_string v conv).2.take 2 =
        ['0', if conv.is_caps then 'X' else 'x']) := by
  refine ⟨by decide, by decide, ?_⟩
  intro v conv ha hb hs hz
  have hoc : ∀ l : List Char,
      ¬(conv.is_alt = true ∧ conv.base = 8 ∧ l.headD nulChar ≠ '0') := by
    rintro l ⟨-, h8, -⟩
    rw [hb] at h8
    omega
  simp only [convert_integer_to_string]
  rw [if_neg (fun h => hz ⟨h.1, h.2.1⟩), resolveSign_not_signed conv v hs]
  simp only [render_integer]
  rw [if_neg (hoc _), if_pos ⟨ha, hb⟩]
  simp

/-- Witness for `claim_C1_amended` at value 0, base 16, alternate form. -/
theorem claim_C1_witness :
    (convert_integer_to_string 0 { is_alt := true, prec := 1, base := 16 }).2.take 2
      = ['0', 'x'] := by
  have h := claim_C1_amended.2.2 0 { is_alt := true, prec := 1, base := 16 }
    rfl rfl rfl (by decide)
  simpa using h

/-- **C2 (counterexample).**  A failed conversion whose specifier contains `*`
does consume the width argument: after `format("%*q")` with one argument the
argument list is empty, and `format("%*q%d", 3, 42)` prints `"%*q42"` (the
`42` shows `%d` received the second argument, the first having been consumed
by `*` despite the failure). -/
theorem claim_C2_counterexample :
    (simple_printf "%*q".toList [Arg.word 3]).args = [] ∧
    String.mk (simple_printf "%*q%d".toList [Arg.word 3, Arg.word 42]).sink.out
      = "%*q42" := ⟨by decide, by decide⟩

/-- **C2 (amended).**  On a failed conversion the entire original specifier
text, from the `%` through every character consumed while parsing, is emitted
verbatim, scanning resumes immediately after it, and the conversion itself
consumes no argument — but width/precision arguments fetched by `*` during
parsing are consumed and not restored.  Concretely: the dispatcher rejects any
unrecognized letter without touching the state; `%q`, `%lc` and `%hs` replay
their specifier text and leave the arguments untouched; `%*q` replays `"%*q"`
but has consumed its width argument. -/
theorem claim_C2_amended :
    (∀ (σ : Type) (S : SinkOps σ) (conv : Conv) (st : PState σ),
      conv.type ∉ ['n', 'c', 's', 'd', 'i', 'u', 'o', 'x', 'X', 'p'] →
      print_conversion S conv st = (st, false)) ∧
    (∀ args : List Arg,
      simple_printf ['%', 'q'] args = ⟨⟨['%', 'q'], 2⟩, args, [], false⟩) ∧
    (∀ args : List Arg,
      simple_printf ['%', 'l', 'c'] args = ⟨⟨['%', 'l', 'c'], 3⟩, args, [], false⟩) ∧
    (∀ args : List Arg,
      simple_printf ['%', 'h', 's'] args = ⟨⟨['%', 'h', 's'], 3⟩, args, [], false⟩) ∧
    (∀ (w : Nat) (rest : List Arg),
      simple_printf ['%', '*', 'q'] (Arg.word w :: rest)
        = ⟨⟨['%', '*', 'q'], 3⟩, rest, [], false⟩) := by
  refine ⟨?_, ?_, ?_, ?_, ?_⟩
  · intro σ S conv st h
    simp only [List.mem_cons, not_or] at h
    obtain ⟨h1, h2, h3, h4, h5, h6, h7, h8, h9, h10, -⟩ := h
    simp [print_conversion, h1, h2, h3, h4, h5, h6, h7, h8, h9, h10]
  all_goals
    intros
    simp [simple_printf, printf_core, printfLoop, memchrPct, memchrFrom, process_spec,
      parse_spec, parse_flags, parse_flags_loop, parse_width, parse_prec, parse_length,
      scan_digits, cAt, isdigit, print_conversion, print_char_conversion,
      print_string_conversion, sliceOf, nulChar, List.range_succ,
      printer_file_copy, printer_file_fill, printer_file_putc, fileOps]

/-- Witness for `claim_C2_amended`: the dispatcher rejects the letter `q`
without touching the state. -/
theorem claim_C2_witness :
    print_conversion fileOps { type := 'q' } ⟨⟨[], 0⟩, [Arg.word 3], [], false⟩
      = (⟨⟨[], 0⟩, [Arg.word 3], [], false⟩, false) :=
  claim_C2_amended.1 FileSink fileOps { type := 'q' } ⟨⟨[], 0⟩, [Arg.word 3], [], false⟩
    (by decide)

/-- **C3 (counterexample).**  A length modifier before `p` is honored in the
argument fetch, not ignored: `%hp` truncates the pointer value to 16 bits, so
`format("[%hp]", 0x12345)` gives `"[0x2345]"` while `format("[%p]", 0x12345)`
gives `"[0x12345]"`. -/
theorem claim_C3_counterexample :
    (simple_printf "[%hp]".toList [Arg.word 0x12345]).sink.out ≠
      (simple_printf "[%p]".toList [Arg.word 0x12345]).sink.out := by decide

/-- **C3 (amended).**  Only when `p` directly follows the `%`-prefix (no
modifier) does the parser assign the fixed pointer width; a preceding length
modifier is kept and honored by the fetch.  On this LP64 platform the 64-bit
modifiers `l`, `ll`, `j`, `z`, `t` happen to fetch the full pointer width, so
`%lp`, `%llp`, `%jp`, `%zp`, `%tp` coincide with `%p` for every argument —
but `%hp` and `%hhp` truncate to 16 and 8 bits. -/
theorem claim_C3_amended :
    (∀ (v : Nat) (rest : List Arg),
      (simple_printf ['[', '%', 'l', 'p', ']'] (Arg.word v :: rest)).sink.out =
        (simple_printf ['[', '%', 'p', ']'] (Arg.word v :: rest)).sink.out ∧
      (simple_printf ['[', '%', 'l', 'l', 'p', ']'] (Arg.word v :: rest)).sink.out =
        (simple_printf ['[', '%', 'p', ']'] (Arg.word v :: rest)).sink.out ∧
      (simple_printf ['[', '%', 'j', 'p', ']'] (Arg.word v :: rest)).sink.out =
        (simple_printf ['[', '%', 'p', ']'] (Arg.word v :: rest)).sink.out ∧
      (simple_printf ['[', '%', 'z', 'p', ']'] (Arg.word v :: rest)).sink.out =
        (simple_printf ['[', '%', 'p', ']'] (Arg.word v :: rest)).sink.out ∧
      (simple_printf ['[', '%', 't', 'p', ']'] (Arg.word v :: rest)).sink.out =
        (simple_printf ['[', '%', 'p', ']'] (Arg.word v :: rest)).sink.out) ∧
    String.mk (simple_printf "[%hp]".toList [Arg.word 0x12345]).sink.out = "[0x2345]" ∧
    String.mk (simple_printf "[%hhp]".toList [Arg.word 0x12345]).sink.out = "[0x45]" ∧
    String.mk (simple_printf "[%p]".toList [Arg.word 0x12345]).sink.out = "[0x12345]" := by
  refine ⟨fun v rest => ⟨?_, ?_, ?_, ?_, ?_⟩, by decide, by decide, by decide⟩ <;>
    simp [simple_printf, printf_core, printfLoop, memchrPct, memchrFrom, process_spec,
      parse_spec, parse_flags, parse_flags_loop, parse_width, parse_prec, parse_length,
      scan_digits, cAt, isdigit, print_conversion, print_diouxXp_conversions,
      setup_conversion, setup_prec, get_unsigned_integer, get_signed_integer, vaWord,
      print_converted_string, sliceOf, nulChar, convert_integer_to_string, render_integer,
      toShort, wrapSigned, signedOf, resolveSign, soft_prec_adjust, precIdx,
      List.range_succ, printer_file_copy, printer_file_fill, printer_file_putc, fileOps]

/-- **C9.**  For `%*.*d` the arguments are consumed in strictly textual
order, regardless of their values: the width parser consumes exactly the
first argument, the precision parser then consumes exactly the next one,
and the value fetch consumes the following one; a full run of
`format("%*.*d", w, p, v, ...)` consumes exactly the three arguments of the
specifier and no more, and `format("%*.*d", 8, 4, 99) == "    0099"`. -/
theorem claim_C9_fetch_order (w p v : Nat) (A : List Arg) :
    (parse_width ['%', '*', '.', '*', 'd'] 8 1 {}
        (Arg.word w :: Arg.word p :: Arg.word v :: A) false).2.2.1
      = Arg.word p :: Arg.word v :: A ∧
    (parse_prec ['%', '*', '.', '*', 'd'] 8 2 {}
        (Arg.word p :: Arg.word v :: A) false).2.2.1 = Arg.word v :: A ∧
    (∀ (k : FileSink) (ns : List Nat) (u : Bool),
      (get_signed_integer 0 ⟨k, Arg.word v :: A, ns, u⟩).2.args = A) ∧
    (simple_printf ['%', '*', '.', '*', 'd']
        (Arg.word w :: Arg.word p :: Arg.word v :: A)).args = A ∧
    String.mk (simple_printf "%*.*d".toList
      [Arg.word 8, Arg.word 4, Arg.word 99]).sink.out = "    0099" := by
  refine ⟨?_, ?_, ?_, ?_, by decide⟩
  · simp [parse_width, cAt]
  · simp [parse_prec, cAt]
  · intro k ns u
    simp [get_signed_integer, vaWord]
  · simp [simple_printf, printf_core, printfLoop, memchrPct, memchrFrom, process_spec,
      parse_spec, parse_flags, parse_flags_loop, parse_width, parse_prec, parse_length,
      scan_digits, cAt, isdigit, print_conversion, print_diouxXp_conversions,
      setup_conversion, setup_prec, get_signed_integer, get_unsigned_integer, vaWord,
      sliceOf, nulChar, List.range_succ,
      printer_file_copy, printer_file_fill, printer_file_putc, fileOps]

/-- Witness for `claim_C9_fetch_order` at `w = 8`, `p = 4`, `v = 99` with no
surplus arguments. -/
theorem claim_C9_witness :
    (simple_printf ['%', '*', '.', '*', 'd'] [Arg.word 8, Arg.word 4, Arg.word 99]).args
      = [] := by
  have h := claim_C9_fetch_order 8 4 99 []
  exact h.2.2.2.1

/-- **C10 (code bug).**  On the format consisting of a single unmatched `'%'`
the loop does not stop at the terminator: the failed-specifier replay copies
`curr_fmt - conv_fmt = 2` bytes from a 1-character format — emitting the
terminating NUL — and the loop's next `memchr` is then called with length
`term_fmt - curr_fmt = -1` converted to `size_t`, scanning far past the end
of the format (latched here as the `ub` flag). -/
theorem claim_C10_lone_percent :
    (simple_printf ['%'] []).sink.out = ['%', nulChar] ∧
    (simple_printf ['%'] []).ub = true := by decide

/-- A bare character counter as a sink: the reference for "the total that
would have been produced without truncation". -/
def counterOps : SinkOps Nat :=
  { copy := fun n s => n + s.length, fill := fun n _ k => n + k,
    putc := fun n _ => n + 1, total := fun n => n }

/-- The stream printer advances in lock-step with the counter, and its output
length always equals its total. -/
theorem file_counter_sim :
    SinkSim fileOps counterOps (fun q n => q.total = n ∧ q.out.length = n) := by
  refine ⟨?_, ?_, ?_, ?_⟩
  · rintro s₁ s₂ cs ⟨h1, h2⟩
    simp [fileOps, counterOps, printer_file_copy, h1, h2]
  · rintro s₁ s₂ c n ⟨h1, h2⟩
    simp [fileOps, counterOps, printer_file_fill, h1, h2]
  · rintro s₁ s₂ c ⟨h1, h2⟩
    simp [fileOps, counterOps, printer_file_putc, h1, h2]
  · rintro s₁ s₂ ⟨h1, -⟩
    exact h1

/-- The buffer printer's total advances in lock-step with the counter. -/
theorem buf_counter_sim : SinkSim bufOps counterOps (fun q n => q.total = n) := by
  refine ⟨?_, ?_, ?_, ?_⟩
  · intro s₁ s₂ cs h1
    simp only [bufOps, counterOps, printer_buf_copy]
    split_ifs <;> simp [h1]
  · intro s₁ s₂ c n h1
    simp only [bufOps, counterOps, printer_buf_fill]
    split_ifs <;> simp [h1]
  · intro s₁ s₂ c h1
    simp only [bufOps, counterOps, printer_buf_putc]
    split_ifs <;> simp [h1]
  · intro s₁ s₂ h1
    exact h1

/-- The in-bounds-stores invariant is preserved through a run of the buffer
printer. -/
theorem buf_inv_sim (m : Nat) :
    SinkSim bufOps bufOps
      (fun q r : BufSink => q = r ∧ q.max = m ∧ ∀ w ∈ q.writes, w.1 < m) := by
  refine ⟨?_, ?_, ?_, ?_⟩
  · rintro s₁ s₂ cs ⟨rfl, hm, hw⟩
    simp only [bufOps]
    obtain ⟨-, h2, h3⟩ := printer_buf_copy_spec s₁ cs
    refine ⟨by trivial, by rw [h2]; exact hm, fun w hmem => ?_⟩
    rcases h3 w hmem with h | h
    · exact hw w h
    · omega
  · rintro s₁ s₂ c n ⟨rfl, hm, hw⟩
    simp only [bufOps]
    obtain ⟨-, h2, h3⟩ := printer_buf_fill_spec s₁ c n
    refine ⟨by trivial, by rw [h2]; exact hm, fun w hmem => ?_⟩
    rcases h3 w hmem with h | h
    · exact hw w h
    · omega
  · rintro s₁ s₂ c ⟨rfl, hm, hw⟩
    simp only [bufOps]
    obtain ⟨-, h2, h3⟩ := printer_buf_putc_spec s₁ c
    refine ⟨by trivial, by rw [h2]; exact hm, fun w hmem => ?_⟩
    rcases h3 w hmem with h | h
    · exact hw w h
    · omega
  · rintro s₁ s₂ ⟨rfl, -, -⟩
    rfl

/-- The bounded-buffer entry point returns the untruncated count: its total
equals the length of the stream run's output on the same format and
arguments. -/
theorem snprintf_ret_eq (cap : Nat) (fmt : List Char) (args : List Arg) :
    (simple_snprintf cap fmt args).sink.total = (simple_printf fmt args).sink.out.length := by
  have hb := (printf_core_sim buf_counter_sim fmt args
      ⟨[], if cap > 0 then cap - 1 else 0, 0⟩ 0 rfl).1
  have hf := (printf_core_sim file_counter_sim fmt args ⟨[], 0⟩ 0 ⟨rfl, rfl⟩).1
  simp only [simple_snprintf, simple_printf] at *
  rw [hb, hf.2]

/-- For a positive capacity, every byte the bounded-buffer entry point
stores — the truncated output and the final NUL — lands strictly below the
capacity. -/
theorem snprintf_writes_lt (cap : Nat) (fmt : List Char) (args : List Arg)
    (hc : 1 ≤ cap) :
    ∀ w ∈ (simple_snprintf cap fmt args).sink.writes, w.1 < cap := by
  obtain ⟨-, hmax, hw⟩ := (printf_core_sim (buf_inv_sim (cap - 1)) fmt args
      ⟨[], cap - 1, 0⟩ ⟨[], cap - 1, 0⟩ ⟨rfl, rfl, by simp⟩).1
  intro w hwmem
  simp only [simple_snprintf] at hwmem
  rw [if_pos (by omega : cap > 0)] at hwmem
  rcases List.mem_append.1 hwmem with h | h
  · have := hw w h
    omega
  · simp only [List.mem_singleton] at h
    subst h
    simp only []
    have hmx : (printf_core bufOps fmt ⟨[], cap - 1, 0⟩ args).sink.max = cap - 1 := hmax
    rw [hmx]
    omega

/-- **C4 (counterexample).**  A zero-capacity call still stores the NUL
sentinel, at offset 0 — one byte into a zero-byte buffer — so "at most
`capacity − 1` characters plus a terminating sentinel stored in the buffer"
fails for capacity 0. -/
theorem claim_C4_counterexample :
    ¬(∀ w ∈ (simple_snprintf 0 "x".toList []).sink.writes, w.1 < 0) := by decide

/-- **C4 (amended).**  For every call to the bounded-buffer entry point with
capacity ≥ 1, every stored byte (at most `capacity − 1` output characters,
plus the terminating NUL) lands at an offset strictly below the capacity,
and the returned count is the total the unbounded stream run would have
produced.  Concretely, `simple_snprintf(buf, 5, "%d", 123456)` returns 6 and
leaves the buffer holding `"1234\x00"`. -/
theorem claim_C4_amended :
    (∀ (cap : Nat) (fmt : List Char) (args : List Arg), 1 ≤ cap →
      (∀ w ∈ (simple_snprintf cap fmt args).sink.writes, w.1 < cap) ∧
      (simple_snprintf cap fmt args).sink.total
        = (simple_printf fmt args).sink.out.length) ∧
    ((simple_snprintf 5 "%d".toList [Arg.word 123456]).sink.total = 6 ∧
     (List.range 5).map
        (readBuf (simple_snprintf 5 "%d".toList [Arg.word 123456]).sink.writes)
       = [some '1', some '2', some '3', some '4', some nulChar]) := by
  refine ⟨fun cap fmt args hc =>
    ⟨snprintf_writes_lt cap fmt args hc, snprintf_ret_eq cap fmt args⟩,
    by decide, by decide⟩

/-- Witness for `claim_C4_amended` at capacity 5 with `"%d"` and 123456. -/
theorem claim_C4_witness :
    (simple_snprintf 5 "%d".toList [Arg.word 123456]).sink.total
      = (simple_printf "%d".toList [Arg.word 123456]).sink.out.length :=
  (claim_C4_amended.1 5 "%d".toList [Arg.word 123456] (by norm_num)).2

end SimplePrintf
